import Mathlib

/-!
Verification of the `secure` HTTP middleware (policy.go).

The development shallowly embeds the package's policy engine: the
configuration record, the compiled header list built by `loadConfig`, and
the per-request pipeline `apply` = write headers, host allow-list check,
SSL check.  Go's in-place mutation of the response writer and of
`req.URL` is modelled by explicit state passing: every step returns the
(possibly updated) request and response.  The one Go run-time error
reachable in this code (indexing `hv[0]` on an empty header-value slice
in `isSSLRequest`) is modelled by an `Option` result, `none` standing for
the aborted computation.
-/

namespace Secure

/-- Model of one character step of Go `strings.EqualFold` restricted to
ASCII: an upper-case ASCII letter is mapped to its lower-case form, any
other character is unchanged.  All header names, header values and host
names handled by this package are ASCII, where Go's Unicode simple
folding coincides with ASCII case folding. -/
def foldChar (c : Char) : Char :=
  if 65 ≤ c.toNat ∧ c.toNat ≤ 90 then Char.ofNat (c.toNat + 32) else c

/-- Model of Go `strings.EqualFold a b` (case-insensitive equality). -/
def eqFold (a b : String) : Bool :=
  a.data.map foldChar == b.data.map foldChar

/-- Model of Go `net/url.URL` restricted to the fields this package
reads or writes: `Scheme`, `Host`, the escaped path and `RawQuery`.
`User`, `Opaque` and `Fragment` are never touched by the package and are
omitted. -/
structure URL where
  scheme : String
  host : String
  path : String
  rawQuery : String
deriving DecidableEq

/-- Model of `URL.String()` of Go `net/url` for the URLs this package
builds: a scheme, a host (added after `//`), the escaped path, and the
query appended after `?` when non-empty. -/
def URL.render (u : URL) : String :=
  u.scheme ++ "://" ++ u.host ++ u.path ++
    (if u.rawQuery.length = 0 then "" else "?" ++ u.rawQuery)

/-- Model of `*http.Request` restricted to what the package reads:
`req.Host`, `req.URL` (a pointer in Go, so updates to it are part of the
request state), `req.Header` (a Go map from names to value slices,
modelled as an association list looked up by exact string equality) and
whether `req.TLS` is non-nil. -/
structure Request where
  host : String
  url : URL
  headers : List (String × List String)
  tls : Bool
deriving DecidableEq

/-- Model of the response writer state: the header map, the status code
written by `WriteHeader` (none while unwritten) and the body. -/
structure Response where
  headers : List (String × List String)
  status : Option Nat
  body : String
deriving DecidableEq

/-- A response writer in its initial state. -/
def emptyResponse : Response := ⟨[], none, ""⟩

/-- Go map lookup `m[k]` with its `ok` flag: the exact-key association
lookup. -/
def getHeader (hs : List (String × List String)) (k : String) :
    Option (List String) :=
  (hs.find? (fun p => p.1 == k)).map (fun p => p.2)

/-- Go map assignment `m[k] = v`.  Go header maps are unordered, so any
lookup-faithful representation is adequate; we put the new binding in
front and drop any old binding for the key. -/
def setHeader (hs : List (String × List String)) (k : String)
    (v : List String) : List (String × List String) :=
  (k, v) :: hs.filter (fun p => !(p.1 == k))

/-- The `header` struct of policy.go: a name and a value slice. -/
structure Header where
  key : String
  value : List String
deriving DecidableEq

/-- The `addHeader` method of policy.go: append a pair with a singleton
value slice to the compiled list. -/
def addHeader (hs : List Header) (k v : String) : List Header :=
  hs ++ [⟨k, [v]⟩]

/-- The configuration record.  Its field set and zero values follow the
package's `Config` struct as used by policy.go; `STSSeconds` is a Go
`int64`, modelled as `Int`; `SSLProxyHeaders` is a Go map, modelled as
an association list; `BadHostHandler` is a caller-supplied handler that
may rewrite the response. -/
structure Config where
  isDevelopment : Bool := false
  allowedHosts : List String := []
  badHostHandler : Option (Response → Request → Response) := none
  sslRedirect : Bool := false
  sslTemporaryRedirect : Bool := false
  sslHost : String := ""
  sslProxyHeaders : List (String × String) := []
  dontRedirectIPV4Hostnames : Bool := false
  stsSeconds : Int := 0
  stsIncludeSubdomains : Bool := false
  frameDeny : Bool := false
  customFrameOptionsValue : String := ""
  contentTypeNosniff : Bool := false
  browserXssFilter : Bool := false
  contentSecurityPolicy : String := ""
  referrerPolicy : String := ""
  ieNoOpen : Bool := false
  featurePolicy : String := ""

/-- The `loadConfig` method of policy.go: the compiled fixed header
list, built by the same sequence of conditional `addHeader` calls as the
source (frame options with the custom value taking precedence over
`DENY`, nosniff, XSS filter, CSP, referrer policy, STS formatted as
`max-age=<n>` via `fmt.Sprintf` with the `; includeSubdomains` suffix,
download options, feature policy). -/
def loadConfig (cfg : Config) : List Header :=
  let hs : List Header := []
  let hs := if 0 < cfg.customFrameOptionsValue.length then
      addHeader hs "X-Frame-Options" cfg.customFrameOptionsValue
    else if cfg.frameDeny then addHeader hs "X-Frame-Options" "DENY" else hs
  let hs := if cfg.contentTypeNosniff then
      addHeader hs "X-Content-Type-Options" "nosniff" else hs
  let hs := if cfg.browserXssFilter then
      addHeader hs "X-Xss-Protection" "1; mode=block" else hs
  let hs := if 0 < cfg.contentSecurityPolicy.length then
      addHeader hs "Content-Security-Policy" cfg.contentSecurityPolicy else hs
  let hs := if 0 < cfg.referrerPolicy.length then
      addHeader hs "Referrer-Policy" cfg.referrerPolicy else hs
  let hs := if cfg.stsSeconds ≠ 0 then
      addHeader hs "Strict-Transport-Security"
        ("max-age=" ++ toString cfg.stsSeconds ++
          (if cfg.stsIncludeSubdomains then "; includeSubdomains" else ""))
    else hs
  let hs := if cfg.ieNoOpen then
      addHeader hs "X-Download-Options" "noopen" else hs
  let hs := if 0 < cfg.featurePolicy.length then
      addHeader hs "Feature-Policy" cfg.featurePolicy else hs
  hs

/-- The state a pipeline step hands back: the request (whose URL the SSL
step may have mutated), the response, and the step's boolean (`true` =
pass / Continue, `false` = Halted). -/
structure Step where
  req : Request
  res : Response
  ok : Bool
deriving DecidableEq

/-- The `writeSecureHeaders` method: every compiled pair is assigned
into the response header map (`header[pair.key] = pair.value`). -/
def writeSecureHeaders (pairs : List Header) (res : Response) : Response :=
  { res with
    headers := pairs.foldl (fun hs p => setHeader hs p.key p.value) res.headers }

/-- The host taken by `checkAllowHosts`: `req.Host`, falling back to
`req.URL.Host` when empty. -/
def effectiveHost (req : Request) : String :=
  if req.host.length = 0 then req.url.host else req.host

/-- The `checkAllowHosts` method: pass when the allow-list is empty,
otherwise pass on the first case-insensitive match; on no match invoke
`BadHostHandler` when set, else write status 403, and halt. -/
def checkAllowHosts (cfg : Config) (req : Request) (res : Response) : Step :=
  if cfg.allowedHosts.isEmpty then ⟨req, res, true⟩
  else
    let host := effectiveHost req
    if cfg.allowedHosts.any (fun allowedHost => eqFold allowedHost host) then
      ⟨req, res, true⟩
    else
      match cfg.badHostHandler with
      | some handler => ⟨req, handler res req, false⟩
      | none => ⟨req, { res with status := some 403 }, false⟩

/-- Go `strings.IndexByte(host, ':')` followed by `host[:index]`: the
prefix of the string before its first colon (the whole string when there
is no colon). -/
def takeUntilColon : List Char → List Char
  | [] => []
  | c :: cs => if c = ':' then [] else c :: takeUntilColon cs

/-- Go's decimal digit test for IPv4 fields: the byte lies between
ASCII `0` (48) and ASCII `9` (57). -/
def isDig (c : Char) : Bool := decide (48 ≤ c.toNat ∧ c.toNat ≤ 57)

/-- Value of a decimal digit character. -/
def digitVal (c : Char) : Nat := c.toNat - 48

/-- Numeric value of a decimal digit string. -/
def decNat (l : List Char) : Nat :=
  l.foldl (fun n c => n * 10 + digitVal c) 0

/-- Leading-zero test of Go's IPv4 field parser: a field of two or more
characters must not start with `0`. -/
def noLeadZero : List Char → Bool
  | [] => true
  | [_] => true
  | c :: _ :: _ => !(c == '0')

/-- One dotted-quad field as accepted by Go `net.ParseIP`: non-empty,
decimal digits only, no leading zero, value at most 255. -/
def ipv4FieldOK (f : List Char) : Bool :=
  !f.isEmpty && f.all isDig && noLeadZero f && decide (decNat f ≤ 255)

/-- Split a character list at every dot (Go's IPv4 parser treats each
dot as a field separator, empty fields rejected later). -/
def splitDots : List Char → List (List Char)
  | [] => [[]]
  | c :: cs =>
    if c = '.' then [] :: splitDots cs
    else
      match splitDots cs with
      | [] => [[c]]
      | f :: rest => (c :: f) :: rest

/-- Model of `net.ParseIP(s) != nil` for colon-free input: exactly four
dotted fields, each a valid octet.  `isIPV4` only ever calls `ParseIP`
on the prefix of the host before its first colon, which contains no
colon (`takeUntilColon_not_mem_colon`), and on colon-free input Go's
`ParseIP` dispatches to its dotted-quad IPv4 parser (the IPv6 branch is
taken only when a colon occurs before any dot); any other character in
the input makes both the source and this model fail. -/
def parseIPv4ok (s : List Char) : Bool :=
  match splitDots s with
  | [a, b, c, d] => ipv4FieldOK a && ipv4FieldOK b && ipv4FieldOK c && ipv4FieldOK d
  | _ => false

/-- The `isIPV4` function of policy.go: cut the host at its first colon,
then test the remainder with `net.ParseIP`. -/
def isIPV4 (host : String) : Bool :=
  parseIPv4ok (takeUntilColon host.data)

/-- The proxy-header loop of `isSSLRequest`: for each configured pair
the request header map is indexed with the configured name exactly; an
absent key is skipped; a present key has its first value compared
case-insensitively with the configured value, a match returning `true`
at once.  Indexing `hv[0]` on a present key whose value slice is empty
is a Go run-time error, modelled by `none`. -/
def proxyLoop (entries : List (String × String)) (req : Request) : Option Bool :=
  match entries with
  | [] => some false
  | (h, v) :: rest =>
    match getHeader req.headers h with
    | none => proxyLoop rest req
    | some hv =>
      match hv with
      | [] => none
      | c :: _ => if eqFold c v then some true else proxyLoop rest req

/-- The `isSSLRequest` method: the request is SSL when its URL scheme is
`https` case-insensitively or the connection is TLS-terminated; else
when some configured proxy header matches; else when the IPv4 exemption
applies.  `none` is the run-time error propagated from the loop. -/
def isSSLRequest (cfg : Config) (req : Request) : Option Bool :=
  if eqFold req.url.scheme "https" || req.tls then some true
  else
    match proxyLoop cfg.sslProxyHeaders req with
    | none => none
    | some true => some true
    | some false => some (cfg.dontRedirectIPV4Hostnames && isIPV4 req.host)

/-- Model of Go `http.Redirect`: set the `Location` header and write the
status code.  The HTML body Redirect adds for GET requests is outside
the policy engine and not modelled; no claim concerns it. -/
def httpRedirect (res : Response) (loc : String) (code : Nat) : Response :=
  { res with headers := setHeader res.headers "Location" [loc],
             status := some code }

/-- The host the SSL redirect of `checkSSL` targets: `SSLHost` when
non-empty, else `req.Host`. -/
def redirectHost (cfg : Config) (req : Request) : String :=
  if 0 < cfg.sslHost.length then cfg.sslHost else req.host

/-- The URL `checkSSL` leaves in `req.URL` on the redirect path. -/
def redirectURL (cfg : Config) (req : Request) : URL :=
  { req.url with scheme := "https", host := redirectHost cfg req }

/-- The request as mutated by `checkSSL` on the redirect path. -/
def redirectedRequest (cfg : Config) (req : Request) : Request :=
  { req with url := redirectURL cfg req }

/-- The `checkSSL` method: pass when `SSLRedirect` is off or the request
is SSL; otherwise mutate `req.URL` in place (scheme `https`, host from
`req.Host` then overridden by a non-empty `SSLHost`), issue a redirect
to the mutated URL with status 301, or 307 under
`SSLTemporaryRedirect`, and halt. -/
def checkSSL (cfg : Config) (req : Request) (res : Response) : Option Step :=
  if !cfg.sslRedirect then some ⟨req, res, true⟩
  else
    match isSSLRequest cfg req with
    | none => none
    | some true => some ⟨req, res, true⟩
    | some false =>
      let host1 := if 0 < cfg.sslHost.length then cfg.sslHost else req.host
      let url1 : URL := { req.url with scheme := "https", host := host1 }
      let req1 : Request := { req with url := url1 }
      let status := if cfg.sslTemporaryRedirect then 307 else 301
      some ⟨req1, httpRedirect res url1.render status, false⟩

/-- The `apply` method: in development mode pass at once touching
nothing; otherwise write the compiled headers, run the host check, and
on pass run the SSL check.  The compiled list is `loadConfig cfg`, which
the Go constructor precomputes once; `loadConfig` is pure so inlining it
is equivalent. -/
def apply (cfg : Config) (req : Request) (res : Response) : Option Step :=
  if cfg.isDevelopment then some ⟨req, res, true⟩
  else
    let res1 := writeSecureHeaders (loadConfig cfg) res
    let s := checkAllowHosts cfg req res1
    if s.ok then checkSSL cfg s.req s.res else some s

/-! ## Reference definitions written from the specification -/

/-- Reference compiled header set, written from the specification text:
exactly one pair per enabled field, in the fixed order Frame-Options,
Content-Type-Options, XSS-Protection, CSP, Referrer-Policy, STS,
Download-Options, Feature-Policy; a non-empty custom frame value is
emitted instead of `DENY` even when `FrameDeny` is set; the STS pair is
present exactly when `STSSeconds` is non-zero, its value `max-age=<n>`
with `; includeSubdomains` appended exactly when the flag is set;
absent or zero-valued fields produce no pair. -/
def refHeaders (cfg : Config) : List Header :=
  (if 0 < cfg.customFrameOptionsValue.length then
      [⟨"X-Frame-Options", [cfg.customFrameOptionsValue]⟩]
    else if cfg.frameDeny then [⟨"X-Frame-Options", ["DENY"]⟩] else [])
  ++ (if cfg.contentTypeNosniff then
      [⟨"X-Content-Type-Options", ["nosniff"]⟩] else [])
  ++ (if cfg.browserXssFilter then
      [⟨"X-Xss-Protection", ["1; mode=block"]⟩] else [])
  ++ (if 0 < cfg.contentSecurityPolicy.length then
      [⟨"Content-Security-Policy", [cfg.contentSecurityPolicy]⟩] else [])
  ++ (if 0 < cfg.referrerPolicy.length then
      [⟨"Referrer-Policy", [cfg.referrerPolicy]⟩] else [])
  ++ (if cfg.stsSeconds ≠ 0 then
      [⟨"Strict-Transport-Security",
        ["max-age=" ++ toString cfg.stsSeconds ++
          (if cfg.stsIncludeSubdomains then "; includeSubdomains" else "")]⟩]
      else [])
  ++ (if cfg.ieNoOpen then [⟨"X-Download-Options", ["noopen"]⟩] else [])
  ++ (if 0 < cfg.featurePolicy.length then
      [⟨"Feature-Policy", [cfg.featurePolicy]⟩] else [])

/-- The eight fixed security header names, in emission order. -/
def secureHeaderNames : List String :=
  ["X-Frame-Options", "X-Content-Type-Options", "X-Xss-Protection",
   "Content-Security-Policy", "Referrer-Policy", "Strict-Transport-Security",
   "X-Download-Options", "Feature-Policy"]

/-- The decimal digit character for a value below ten. -/
def digitChar : Nat → Char
  | 0 => '0'
  | 1 => '1'
  | 2 => '2'
  | 3 => '3'
  | 4 => '4'
  | 5 => '5'
  | 6 => '6'
  | 7 => '7'
  | 8 => '8'
  | 9 => '9'
  | _ => '*'

/-- Canonical decimal rendering of a natural number: most significant
digit first, no leading zeros. -/
def decRender (n : Nat) : List Char :=
  if _h : n < 10 then [digitChar n]
  else decRender (n / 10) ++ [digitChar (n % 10)]
decreasing_by exact Nat.div_lt_self (by omega) (by omega)

/-- Join fields with dots: the inverse of `splitDots`. -/
def joinDots : List (List Char) → List Char
  | [] => []
  | [f] => f
  | f :: g :: rest => f ++ '.' :: joinDots (g :: rest)

/-- The specification's notion of a literal IPv4 dotted-quad: four
canonical decimal renderings of numbers at most 255, joined by dots. -/
def IsDottedQuad (s : List Char) : Prop :=
  ∃ a b c d : Nat, a ≤ 255 ∧ b ≤ 255 ∧ c ≤ 255 ∧ d ≤ 255 ∧
    s = decRender a ++ '.' ::
      (decRender b ++ '.' :: (decRender c ++ '.' :: decRender d))

/-! ## Concrete fixtures used by witnesses and counterexamples -/

/-- A plain (non-SSL) GET request for `http://www.example.com/foo`, as
built by the package's test suite. -/
def plainRequest : Request :=
  ⟨"www.example.com", ⟨"http", "www.example.com", "/foo", ""⟩, [], false⟩

/-- A request whose host matches no allow-list entry. -/
def badHostRequest : Request :=
  ⟨"www3.example.com", ⟨"http", "www3.example.com", "/foo", ""⟩, [], false⟩

/-- A request carrying a proxy header key whose value slice is empty. -/
def emptyValueRequest : Request :=
  ⟨"www.example.com", ⟨"http", "www.example.com", "/foo", ""⟩,
    [("X-Forwarded-Proto", [])], false⟩

/-- A request storing `X-Forwarded-Proto: https` under the canonical
header key, over a plain scheme. -/
def canonicalHeaderRequest : Request :=
  ⟨"www.example.com", ⟨"http", "www.example.com", "/foo", ""⟩,
    [("X-Forwarded-Proto", ["https"])], false⟩

/-- Configuration with only `SSLRedirect` enabled. -/
def sslConfig : Config := { sslRedirect := true }

/-- Configuration with an allow-list, as in the test suite. -/
def hostsConfig : Config :=
  { allowedHosts := ["www.example.com", "sub.example.com"] }

/-- Development-mode configuration with other enforcement enabled. -/
def devConfig : Config :=
  { isDevelopment := true, allowedHosts := ["www.example.com"],
    sslRedirect := true, frameDeny := true, stsSeconds := 315360000 }

/-- Configuration with only `FrameDeny` enabled. -/
def frameConfig : Config := { frameDeny := true }

/-- Configuration trusting `X-Forwarded-Proto: https`. -/
def proxyConfig : Config :=
  { sslRedirect := true, sslProxyHeaders := [("X-Forwarded-Proto", "https")] }

/-- Configuration whose proxy-header name is spelled in lower case. -/
def lowerProxyConfig : Config :=
  { sslRedirect := true, sslProxyHeaders := [("x-forwarded-proto", "https")] }

/-- The request as mutated by the SSL redirect of `sslConfig` on
`plainRequest`. -/
def mutatedRequest : Request :=
  ⟨"www.example.com", ⟨"https", "www.example.com", "/foo", ""⟩, [], false⟩

/-- The outcome of `apply sslConfig plainRequest emptyResponse`. -/
def redirectStep : Step :=
  ⟨mutatedRequest,
    ⟨[("Location", ["https://www.example.com/foo"])], some 301, ""⟩, false⟩

/-- The outcome of `apply frameConfig plainRequest emptyResponse`. -/
def frameStep : Step :=
  ⟨plainRequest, ⟨[("X-Frame-Options", ["DENY"])], none, ""⟩, true⟩

/-- The outcome of `apply hostsConfig badHostRequest emptyResponse`. -/
def forbiddenStep : Step :=
  ⟨badHostRequest, ⟨[], some 403, ""⟩, false⟩

/-! ## Header-map lemmas -/

theorem getHeader_setHeader_self (hs : List (String × List String))
    (k : String) (v : List String) : getHeader (setHeader hs k v) k = some v := by
  simp [getHeader, setHeader]

theorem find?_filter_ne (hs : List (String × List String)) (k k' : String)
    (h : k' ≠ k) :
    List.find? (fun p => p.1 == k') (hs.filter (fun p => !(p.1 == k))) =
      List.find? (fun p => p.1 == k') hs := by
  induction hs with
  | nil => rfl
  | cons p tl ih =>
    by_cases hpk : p.1 = k
    · have hk2 : (k == k') = false := by
        rw [beq_eq_false_iff_ne]
        exact Ne.symm h
      simp [List.filter_cons, List.find?_cons, hpk, hk2, ih]
    · by_cases hp' : p.1 = k'
      · simp [List.filter_cons, List.find?_cons, hpk, hp', h]
      · have hk2 : (p.1 == k') = false := by
          rw [beq_eq_false_iff_ne]
          exact hp'
        simp [List.filter_cons, List.find?_cons, hpk, hk2, ih]

theorem getHeader_setHeader_other (hs : List (String × List String))
    (k k' : String) (v : List String) (h : k' ≠ k) :
    getHeader (setHeader hs k v) k' = getHeader hs k' := by
  have hkk : (k == k') = false := by
    simp
    exact fun hh => h hh.symm
  simp only [getHeader, setHeader, List.find?_cons, hkk]
  rw [find?_filter_ne hs k k' h]

/-! ## The compiled header set (claim C4 infrastructure) -/

theorem ite_addHeader (c : Prop) [Decidable c] (hs : List Header)
    (k v : String) :
    (if c then addHeader hs k v else hs) =
      hs ++ (if c then [⟨k, [v]⟩] else []) := by
  split_ifs <;> simp [addHeader]

theorem ite2_addHeader (c1 c2 : Prop) [Decidable c1] [Decidable c2]
    (hs : List Header) (k v1 v2 : String) :
    (if c1 then addHeader hs k v1 else if c2 then addHeader hs k v2 else hs) =
      hs ++ (if c1 then [⟨k, [v1]⟩] else if c2 then [⟨k, [v2]⟩] else []) := by
  split_ifs <;> simp [addHeader]

theorem loadConfig_eq_refHeaders (cfg : Config) :
    loadConfig cfg = refHeaders cfg := by
  simp only [loadConfig]
  rw [ite_addHeader, ite_addHeader, ite_addHeader, ite_addHeader,
    ite_addHeader, ite_addHeader, ite_addHeader, ite2_addHeader]
  simp [refHeaders, List.append_assoc]

theorem map_key_if_block (c : Prop) [Decidable c] (p : Header) :
    List.Sublist ((if c then [p] else []).map Header.key) [p.key] := by
  split_ifs <;> simp

theorem refHeaders_keys_sublist (cfg : Config) :
    List.Sublist ((refHeaders cfg).map Header.key) secureHeaderNames := by
  have hframe :
      List.Sublist
        ((if 0 < cfg.customFrameOptionsValue.length then
            [(⟨"X-Frame-Options", [cfg.customFrameOptionsValue]⟩ : Header)]
          else if cfg.frameDeny then [⟨"X-Frame-Options", ["DENY"]⟩] else []).map
            Header.key) ["X-Frame-Options"] := by
    split_ifs <;> simp
  have h2 := map_key_if_block (cfg.contentTypeNosniff = true)
    (⟨"X-Content-Type-Options", ["nosniff"]⟩ : Header)
  have h3 := map_key_if_block (cfg.browserXssFilter = true)
    (⟨"X-Xss-Protection", ["1; mode=block"]⟩ : Header)
  have h4 := map_key_if_block (0 < cfg.contentSecurityPolicy.length)
    (⟨"Content-Security-Policy", [cfg.contentSecurityPolicy]⟩ : Header)
  have h5 := map_key_if_block (0 < cfg.referrerPolicy.length)
    (⟨"Referrer-Policy", [cfg.referrerPolicy]⟩ : Header)
  have h6 := map_key_if_block (cfg.stsSeconds ≠ 0)
    (⟨"Strict-Transport-Security",
      ["max-age=" ++ toString cfg.stsSeconds ++
        (if cfg.stsIncludeSubdomains then "; includeSubdomains" else "")]⟩ :
      Header)
  have h7 := map_key_if_block (cfg.ieNoOpen = true)
    (⟨"X-Download-Options", ["noopen"]⟩ : Header)
  have h8 := map_key_if_block (0 < cfg.featurePolicy.length)
    (⟨"Feature-Policy", [cfg.featurePolicy]⟩ : Header)
  simp only [refHeaders, List.map_append]
  exact List.Sublist.append (List.Sublist.append (List.Sublist.append
    (List.Sublist.append (List.Sublist.append (List.Sublist.append
      (List.Sublist.append hframe h2) h3) h4) h5) h6) h7) h8

theorem loadConfig_keys_nodup (cfg : Config) :
    ((loadConfig cfg).map Header.key).Nodup := by
  rw [loadConfig_eq_refHeaders]
  have hn : secureHeaderNames.Nodup := by decide
  exact List.Nodup.sublist (refHeaders_keys_sublist cfg) hn

theorem loadConfig_key_mem_names (cfg : Config) (p : Header)
    (hp : p ∈ loadConfig cfg) : p.key ∈ secureHeaderNames := by
  rw [loadConfig_eq_refHeaders] at hp
  exact (refHeaders_keys_sublist cfg).subset (List.mem_map_of_mem Header.key hp)

theorem secureHeaderNames_ne_location (k : String)
    (hk : k ∈ secureHeaderNames) : k ≠ "Location" := by
  fin_cases hk <;> decide

/-! ## writeSecureHeaders lookup lemmas -/

theorem getHeader_fold_of_not_mem (pairs : List Header)
    (hs : List (String × List String)) (k : String)
    (hk : k ∉ pairs.map Header.key) :
    getHeader (pairs.foldl (fun a q => setHeader a q.key q.value) hs) k =
      getHeader hs k := by
  induction pairs generalizing hs with
  | nil => rfl
  | cons q tl ih =>
    simp only [List.map_cons, List.mem_cons, not_or] at hk
    simp only [List.foldl_cons]
    rw [ih _ hk.2, getHeader_setHeader_other _ _ _ _ hk.1]

theorem getHeader_fold_mem (pairs : List Header)
    (hs : List (String × List String)) (p : Header)
    (hnd : (pairs.map Header.key).Nodup) (hp : p ∈ pairs) :
    getHeader (pairs.foldl (fun a q => setHeader a q.key q.value) hs) p.key =
      some p.value := by
  induction pairs generalizing hs with
  | nil => cases hp
  | cons q tl ih =>
    simp only [List.map_cons, List.nodup_cons] at hnd
    simp only [List.foldl_cons]
    rcases List.mem_cons.mp hp with hq | htl
    · subst hq
      rw [getHeader_fold_of_not_mem _ _ _ hnd.1, getHeader_setHeader_self]
    · exact ih _ hnd.2 htl

theorem getHeader_writeSecureHeaders (cfg : Config) (res : Response)
    (p : Header) (hp : p ∈ loadConfig cfg) :
    getHeader (writeSecureHeaders (loadConfig cfg) res).headers p.key =
      some p.value :=
  getHeader_fold_mem _ _ _ (loadConfig_keys_nodup cfg) hp

/-! ## Host-check lemmas -/

theorem checkAllowHosts_pass (cfg : Config) (req : Request) (res : Response)
    (h : cfg.allowedHosts = [] ∨
      ∃ a ∈ cfg.allowedHosts, eqFold a (effectiveHost req) = true) :
    checkAllowHosts cfg req res = ⟨req, res, true⟩ := by
  rcases h with h | ⟨a, ha, hf⟩
  · simp [checkAllowHosts, h]
  · have hany : cfg.allowedHosts.any
        (fun allowedHost => eqFold allowedHost (effectiveHost req)) = true :=
      List.any_eq_true.mpr ⟨a, ha, hf⟩
    by_cases he : cfg.allowedHosts.isEmpty <;> simp [checkAllowHosts, he, hany]

/-! ## Digit and decimal-rendering lemmas (claim C9 infrastructure) -/

theorem char_eq_of_toNat_eq {c d : Char} (h : c.toNat = d.toNat) : c = d :=
  Char.eq_of_val_eq (UInt32.toNat.inj h)

theorem digitChar_isDig (k : Nat) (hk : k < 10) : isDig (digitChar k) = true := by
  interval_cases k <;> decide

theorem digitVal_digitChar (k : Nat) (hk : k < 10) : digitVal (digitChar k) = k := by
  interval_cases k <;> decide

theorem digitChar_ne_zero (k : Nat) (h1 : 1 ≤ k) (hk : k < 10) :
    digitChar k ≠ '0' := by
  interval_cases k <;> decide

theorem digitChar_digitVal (c : Char) (hc : isDig c = true) :
    digitChar (digitVal c) = c := by
  have hb : 48 ≤ c.toNat ∧ c.toNat ≤ 57 := by simpa [isDig] using hc
  have hv : c.toNat = 48 ∨ c.toNat = 49 ∨ c.toNat = 50 ∨ c.toNat = 51 ∨
      c.toNat = 52 ∨ c.toNat = 53 ∨ c.toNat = 54 ∨ c.toNat = 55 ∨
      c.toNat = 56 ∨ c.toNat = 57 := by omega
  rcases hv with h|h|h|h|h|h|h|h|h|h
  · have he : c = '0' := char_eq_of_toNat_eq (by rw [h]; decide)
    rw [he]; decide
  · have he : c = '1' := char_eq_of_toNat_eq (by rw [h]; decide)
    rw [he]; decide
  · have he : c = '2' := char_eq_of_toNat_eq (by rw [h]; decide)
    rw [he]; decide
  · have he : c = '3' := char_eq_of_toNat_eq (by rw [h]; decide)
    rw [he]; decide
  · have he : c = '4' := char_eq_of_toNat_eq (by rw [h]; decide)
    rw [he]; decide
  · have he : c = '5' := char_eq_of_toNat_eq (by rw [h]; decide)
    rw [he]; decide
  · have he : c = '6' := char_eq_of_toNat_eq (by rw [h]; decide)
    rw [he]; decide
  · have he : c = '7' := char_eq_of_toNat_eq (by rw [h]; decide)
    rw [he]; decide
  · have he : c = '8' := char_eq_of_toNat_eq (by rw [h]; decide)
    rw [he]; decide
  · have he : c = '9' := char_eq_of_toNat_eq (by rw [h]; decide)
    rw [he]; decide

theorem one_le_digitVal (c : Char) (hd : isDig c = true) (hc : c ≠ '0') :
    1 ≤ digitVal c := by
  have hb : 48 ≤ c.toNat ∧ c.toNat ≤ 57 := by simpa [isDig] using hd
  have h48 : c.toNat ≠ 48 := by
    intro hh
    exact hc (char_eq_of_toNat_eq (by rw [hh]; decide))
  simp only [digitVal]
  omega

theorem digitVal_le_nine (c : Char) (hd : isDig c = true) : digitVal c ≤ 9 := by
  have hb : 48 ≤ c.toNat ∧ c.toNat ≤ 57 := by simpa [isDig] using hd
  simp only [digitVal]
  omega

theorem decNat_append_digit (l : List Char) (c : Char) :
    decNat (l ++ [c]) = decNat l * 10 + digitVal c := by
  simp [decNat, List.foldl_append]

theorem le_decNat_foldl (cs : List Char) (acc : Nat) :
    acc ≤ cs.foldl (fun n c => n * 10 + digitVal c) acc := by
  induction cs generalizing acc with
  | nil => exact Nat.le_refl _
  | cons c cs ih =>
    calc acc ≤ acc * 10 + digitVal c := by omega
    _ ≤ _ := ih _

theorem digitVal_head_le_decNat (c : Char) (cs : List Char) :
    digitVal c ≤ decNat (c :: cs) := by
  have h := le_decNat_foldl cs (digitVal c)
  simpa [decNat] using h

theorem decRender_all_isDig (n : Nat) : (decRender n).all isDig = true := by
  induction n using Nat.strong_induction_on with
  | _ n ih =>
    rw [decRender]
    by_cases h : n < 10
    · simp [h, digitChar_isDig n h]
    · have hdiv : n / 10 < n := Nat.div_lt_self (by omega) (by omega)
      have hmod : n % 10 < 10 := Nat.mod_lt _ (by omega)
      simp [h, List.all_append, ih _ hdiv, digitChar_isDig _ hmod]

theorem decRender_ne_nil (n : Nat) : decRender n ≠ [] := by
  rw [decRender]
  by_cases h : n < 10 <;> simp [h]

theorem head_decRender_ne_zero (n : Nat) (hn : 1 ≤ n) :
    (decRender n).head? ≠ some '0' := by
  induction n using Nat.strong_induction_on with
  | _ n ih =>
    rw [decRender]
    by_cases h : n < 10
    · simpa [h] using digitChar_ne_zero n hn h
    · have hne := decRender_ne_nil (n / 10)
      have hdiv : n / 10 < n := Nat.div_lt_self (by omega) (by omega)
      have h1 : 1 ≤ n / 10 := by omega
      have hih := ih (n / 10) hdiv h1
      simp only [h, dif_neg, not_false_iff]
      cases hl : decRender (n / 10) with
      | nil => exact absurd hl hne
      | cons x xs =>
        rw [hl] at hih
        simpa using hih

theorem noLeadZero_of_head (l : List Char) (h : l.head? ≠ some '0') :
    noLeadZero l = true := by
  match l with
  | [] => rfl
  | [_] => rfl
  | c :: d :: tl =>
    have hc : ¬ c = '0' := by simpa using h
    simp [noLeadZero, hc]

theorem head_ne_zero_of_noLeadZero (x : Char) (rest : List Char)
    (hr : rest ≠ []) (h : noLeadZero (x :: rest) = true) : x ≠ '0' := by
  match rest, hr with
  | d :: tl, _ => simpa [noLeadZero] using h

theorem noLeadZero_decRender (n : Nat) : noLeadZero (decRender n) = true := by
  by_cases h : n < 10
  · rw [decRender]
    simp only [h, dif_pos]
    rfl
  · exact noLeadZero_of_head _ (head_decRender_ne_zero n (by omega))

theorem decNat_decRender (n : Nat) : decNat (decRender n) = n := by
  induction n using Nat.strong_induction_on with
  | _ n ih =>
    rw [decRender]
    by_cases h : n < 10
    · simp [h, decNat, digitVal_digitChar n h]
    · have hdiv : n / 10 < n := Nat.div_lt_self (by omega) (by omega)
      have hmod : n % 10 < 10 := Nat.mod_lt _ (by omega)
      simp only [h, dif_neg, not_false_iff]
      rw [decNat_append_digit, ih _ hdiv, digitVal_digitChar _ hmod]
      omega

theorem decRender_decNat (l : List Char) (hne : l ≠ [])
    (hdig : l.all isDig = true) (hlz : noLeadZero l = true) :
    decRender (decNat l) = l := by
  induction l using List.reverseRecOn with
  | nil => exact absurd rfl hne
  | append_singleton init c ih =>
    have hdig' : init.all isDig = true ∧ isDig c = true := by
      simpa [List.all_append] using hdig
    match init with
    | [] =>
      have hc9 : digitVal c ≤ 9 := digitVal_le_nine c hdig'.2
      have hval : decNat ([] ++ [c]) = digitVal c := by
        simp [decNat]
      rw [hval, decRender]
      simp only [Nat.lt_succ_iff.mpr hc9, dif_pos, List.nil_append]
      rw [digitChar_digitVal c hdig'.2]
    | x :: xs =>
      have hx : x ≠ '0' := by
        refine head_ne_zero_of_noLeadZero x (xs ++ [c]) (by simp) ?_
        simpa using hlz
      have hxd : isDig x = true := by
        have := hdig'.1
        simp [List.all_cons] at this
        exact this.1
      have hpos : 1 ≤ decNat (x :: xs) :=
        le_trans (one_le_digitVal x hxd hx) (digitVal_head_le_decNat x xs)
      have hc9 : digitVal c ≤ 9 := digitVal_le_nine c hdig'.2
      have hval : decNat ((x :: xs) ++ [c]) =
          decNat (x :: xs) * 10 + digitVal c := decNat_append_digit _ _
      have hbig : ¬ decNat ((x :: xs) ++ [c]) < 10 := by omega
      rw [decRender]
      simp only [hbig, dif_neg, not_false_iff]
      have hdivq : decNat ((x :: xs) ++ [c]) / 10 = decNat (x :: xs) := by omega
      have hmodq : decNat ((x :: xs) ++ [c]) % 10 = digitVal c := by omega
      rw [hdivq, hmodq, digitChar_digitVal c hdig'.2]
      have hlz' : noLeadZero (x :: xs) = true := by
        refine noLeadZero_of_head _ ?_
        simpa using hx
      rw [ih (by simp) hdig'.1 hlz']

/-! ## Dot-splitting lemmas (claim C9 infrastructure) -/

theorem splitDots_ne_nil (l : List Char) : splitDots l ≠ [] := by
  match l with
  | [] => simp [splitDots]
  | c :: cs =>
    simp only [splitDots]
    by_cases hc : c = '.'
    · simp [hc]
    · simp only [hc, if_false, if_neg hc]
      cases h : splitDots cs <;> simp

theorem joinDots_splitDots (l : List Char) : joinDots (splitDots l) = l := by
  induction l with
  | nil => rfl
  | cons c cs ih =>
    by_cases hc : c = '.'
    · subst hc
      simp only [splitDots, if_pos rfl]
      cases h : splitDots cs with
      | nil => exact absurd h (splitDots_ne_nil cs)
      | cons f rest =>
        rw [h] at ih
        simpa [joinDots] using ih
    · simp only [splitDots, if_neg hc]
      cases h : splitDots cs with
      | nil => exact absurd h (splitDots_ne_nil cs)
      | cons f rest =>
        rw [h] at ih
        cases rest with
        | nil => simpa [joinDots] using ih
        | cons g rs =>
          simp only [joinDots] at ih ⊢
          rw [List.cons_append, ih]

theorem not_dot_mem_of_mem_splitDots (l : List Char) (f : List Char)
    (hf : f ∈ splitDots l) : '.' ∉ f := by
  induction l generalizing f with
  | nil =>
    simp [splitDots] at hf
    subst hf
    simp
  | cons c cs ih =>
    by_cases hc : c = '.'
    · rw [splitDots, if_pos hc] at hf
      rcases List.mem_cons.mp hf with h | h
      · subst h; simp
      · exact ih f h
    · rw [splitDots, if_neg hc] at hf
      cases hsp : splitDots cs with
      | nil => exact absurd hsp (splitDots_ne_nil cs)
      | cons g rest =>
        rw [hsp] at hf
        rcases List.mem_cons.mp hf with h | h
        · subst h
          intro hmem
          rcases List.mem_cons.mp hmem with h' | h'
          · exact hc h'.symm
          · have hg : g ∈ splitDots cs := by
              rw [hsp]; exact List.mem_cons_self g rest
            exact ih g hg h'
        · have hfcs : f ∈ splitDots cs := by
            rw [hsp]; exact List.mem_cons_of_mem g h
          exact ih f hfcs

theorem splitDots_append (a t : List Char) (ha : '.' ∉ a) :
    splitDots (a ++ '.' :: t) = a :: splitDots t := by
  induction a with
  | nil => simp [splitDots]
  | cons c cs ih =>
    have hc : ¬ c = '.' := by
      intro h
      exact ha (by rw [h]; exact List.mem_cons_self _ _)
    have hcs : '.' ∉ cs := fun h => ha (List.mem_cons_of_mem c h)
    rw [List.cons_append, splitDots, if_neg hc, ih hcs]

theorem splitDots_of_not_mem (l : List Char) (h : '.' ∉ l) :
    splitDots l = [l] := by
  induction l with
  | nil => rfl
  | cons c cs ih =>
    have hc : ¬ c = '.' := by
      intro hh
      exact h (by rw [hh]; exact List.mem_cons_self _ _)
    have hcs : '.' ∉ cs := fun hh => h (List.mem_cons_of_mem c hh)
    rw [splitDots, if_neg hc, ih hcs]

theorem dot_not_mem_decRender (n : Nat) : '.' ∉ decRender n := by
  intro h
  have hall := decRender_all_isDig n
  rw [List.all_eq_true] at hall
  exact absurd (hall '.' h) (by decide)

/-! ## The octet and dotted-quad characterizations -/

theorem ipv4FieldOK_decRender (n : Nat) (hn : n ≤ 255) :
    ipv4FieldOK (decRender n) = true := by
  have h1 := decRender_ne_nil n
  have h2 := decRender_all_isDig n
  have h3 := noLeadZero_decRender n
  have h4 := decNat_decRender n
  simp only [ipv4FieldOK, Bool.and_eq_true, decide_eq_true_iff]
  refine ⟨⟨⟨?_, h2⟩, h3⟩, by omega⟩
  cases hl : decRender n with
  | nil => exact absurd hl h1
  | cons x xs => simp

theorem isOctet_of_ipv4FieldOK (f : List Char) (h : ipv4FieldOK f = true) :
    ∃ n, n ≤ 255 ∧ f = decRender n := by
  simp only [ipv4FieldOK, Bool.and_eq_true, decide_eq_true_iff] at h
  obtain ⟨⟨⟨hne, hdig⟩, hlz⟩, hle⟩ := h
  have hne' : f ≠ [] := by
    cases f with
    | nil => simp at hne
    | cons x xs => simp
  exact ⟨decNat f, hle, (decRender_decNat f hne' hdig hlz).symm⟩

theorem parseIPv4ok_iff (s : List Char) :
    parseIPv4ok s = true ↔ IsDottedQuad s := by
  constructor
  · intro h
    simp only [parseIPv4ok] at h
    cases hsp : splitDots s with
    | nil => exact absurd hsp (splitDots_ne_nil s)
    | cons a rest =>
      rw [hsp] at h
      match rest with
      | [] => simp at h
      | [_] => simp at h
      | [_, _] => simp at h
      | b :: c :: d :: e :: tl => simp at h
      | [b, c, d] =>
        simp only [Bool.and_eq_true] at h
        obtain ⟨⟨⟨ha, hb⟩, hc⟩, hd⟩ := h
        obtain ⟨na, hna, rfl⟩ := isOctet_of_ipv4FieldOK a ha
        obtain ⟨nb, hnb, rfl⟩ := isOctet_of_ipv4FieldOK b hb
        obtain ⟨nc, hnc, rfl⟩ := isOctet_of_ipv4FieldOK c hc
        obtain ⟨nd, hnd, rfl⟩ := isOctet_of_ipv4FieldOK d hd
        refine ⟨na, nb, nc, nd, hna, hnb, hnc, hnd, ?_⟩
        have hj := joinDots_splitDots s
        rw [hsp] at hj
        simp only [joinDots] at hj
        rw [← hj]
  · rintro ⟨a, b, c, d, ha, hb, hc, hd, rfl⟩
    have hsp : splitDots (decRender a ++ '.' ::
        (decRender b ++ '.' :: (decRender c ++ '.' :: decRender d))) =
        [decRender a, decRender b, decRender c, decRender d] := by
      rw [splitDots_append _ _ (dot_not_mem_decRender a),
        splitDots_append _ _ (dot_not_mem_decRender b),
        splitDots_append _ _ (dot_not_mem_decRender c),
        splitDots_of_not_mem _ (dot_not_mem_decRender d)]
    simp only [parseIPv4ok, hsp, Bool.and_eq_true]
    exact ⟨⟨⟨ipv4FieldOK_decRender a ha, ipv4FieldOK_decRender b hb⟩,
      ipv4FieldOK_decRender c hc⟩, ipv4FieldOK_decRender d hd⟩

theorem takeUntilColon_eq_takeWhile (l : List Char) :
    takeUntilColon l = l.takeWhile (fun c => !(c == ':')) := by
  induction l with
  | nil => rfl
  | cons c cs ih =>
    by_cases hc : c = ':'
    · simp [takeUntilColon, List.takeWhile_cons, hc]
    · simp [takeUntilColon, List.takeWhile_cons, hc, ih]

theorem takeUntilColon_not_mem (l : List Char) : ':' ∉ takeUntilColon l := by
  induction l with
  | nil => simp [takeUntilColon]
  | cons c cs ih =>
    by_cases hc : c = ':'
    · simp [takeUntilColon, hc]
    · simp only [takeUntilColon, if_neg hc, List.mem_cons, not_or]
      exact ⟨fun hh => hc hh.symm, ih⟩

/-! ## Policy-step shape lemmas -/

theorem checkAllowHosts_req (cfg : Config) (req : Request) (res : Response) :
    (checkAllowHosts cfg req res).req = req := by
  simp only [checkAllowHosts]
  split_ifs <;> first
    | rfl
    | (cases cfg.badHostHandler <;> rfl)

theorem checkAllowHosts_cases (cfg : Config) (req : Request) (res : Response) :
    checkAllowHosts cfg req res = ⟨req, res, true⟩ ∨
    (cfg.badHostHandler = none ∧ checkAllowHosts cfg req res =
      ⟨req, { res with status := some 403 }, false⟩) ∨
    (∃ f, cfg.badHostHandler = some f ∧
      checkAllowHosts cfg req res = ⟨req, f res req, false⟩) := by
  simp only [checkAllowHosts]
  split_ifs with h1 h2
  · exact Or.inl rfl
  · exact Or.inl rfl
  · cases hh : cfg.badHostHandler with
    | none => exact Or.inr (Or.inl ⟨rfl, rfl⟩)
    | some f => exact Or.inr (Or.inr ⟨f, rfl, rfl⟩)

theorem checkAllowHosts_ok_shape (cfg : Config) (req : Request)
    (res : Response) (hok : (checkAllowHosts cfg req res).ok = true) :
    checkAllowHosts cfg req res = ⟨req, res, true⟩ := by
  rcases checkAllowHosts_cases cfg req res with h | ⟨_, h⟩ | ⟨f, _, h⟩
  · exact h
  · rw [h] at hok; simp at hok
  · rw [h] at hok; simp at hok

theorem checkAllowHosts_fail_shape (cfg : Config) (req : Request)
    (res : Response) (hok : (checkAllowHosts cfg req res).ok = false) :
    (cfg.badHostHandler = none ∧
      checkAllowHosts cfg req res = ⟨req, { res with status := some 403 }, false⟩)
    ∨ (∃ f, cfg.badHostHandler = some f ∧
      checkAllowHosts cfg req res = ⟨req, f res req, false⟩) := by
  rcases checkAllowHosts_cases cfg req res with h | hrest | hrest
  · rw [h] at hok; simp at hok
  · exact Or.inl hrest
  · exact Or.inr hrest

theorem checkAllowHosts_no_match (cfg : Config) (req : Request)
    (res : Response) (hne : cfg.allowedHosts ≠ [])
    (hall : ∀ a ∈ cfg.allowedHosts, eqFold a (effectiveHost req) = false) :
    checkAllowHosts cfg req res =
      match cfg.badHostHandler with
      | some handler => ⟨req, handler res req, false⟩
      | none => ⟨req, { res with status := some 403 }, false⟩ := by
  have hemp : cfg.allowedHosts.isEmpty = false := by
    cases hl : cfg.allowedHosts with
    | nil => exact absurd hl hne
    | cons a tl => rfl
  have hany : cfg.allowedHosts.any
      (fun allowedHost => eqFold allowedHost (effectiveHost req)) = false := by
    rw [List.any_eq_false]
    intro a ha
    rw [hall a ha]
    simp
  simp [checkAllowHosts, hemp, hany]

theorem checkSSL_shape (cfg : Config) (req : Request) (res : Response)
    (st : Step) (h : checkSSL cfg req res = some st) :
    st = ⟨req, res, true⟩ ∨
    (cfg.sslRedirect = true ∧ isSSLRequest cfg req = some false ∧
      st = ⟨redirectedRequest cfg req,
        httpRedirect res (URL.render (redirectURL cfg req))
          (if cfg.sslTemporaryRedirect then 307 else 301), false⟩) := by
  simp only [checkSSL] at h
  cases hr : cfg.sslRedirect with
  | false =>
    rw [hr] at h
    have h' : some (⟨req, res, true⟩ : Step) = some st := by simpa using h
    exact Or.inl (Option.some.inj h').symm
  | true =>
    cases his : isSSLRequest cfg req with
    | none =>
      rw [hr, his] at h
      simp at h
    | some b =>
      rw [hr, his] at h
      cases b with
      | true =>
        have h' : some (⟨req, res, true⟩ : Step) = some st := by simpa using h
        exact Or.inl (Option.some.inj h').symm
      | false =>
        have h' : some (⟨redirectedRequest cfg req,
            httpRedirect res (URL.render (redirectURL cfg req))
              (if cfg.sslTemporaryRedirect then 307 else 301), false⟩ : Step) =
            some st := by
          simpa [redirectedRequest, redirectURL, redirectHost] using h
        exact Or.inr ⟨rfl, rfl, (Option.some.inj h').symm⟩

theorem apply_dev (cfg : Config) (req : Request) (res : Response)
    (hd : cfg.isDevelopment = true) : apply cfg req res = some ⟨req, res, true⟩ := by
  simp [apply, hd]

theorem apply_nondev (cfg : Config) (req : Request) (res : Response)
    (hd : cfg.isDevelopment = false) :
    apply cfg req res =
      (let s := checkAllowHosts cfg req (writeSecureHeaders (loadConfig cfg) res)
       if s.ok then checkSSL cfg s.req s.res else some s) := by
  simp [apply, hd]

theorem apply_shape (cfg : Config) (req : Request) (res : Response) (st : Step)
    (h : apply cfg req res = some st) :
    st.req = req ∨
    (cfg.isDevelopment = false ∧
      (checkAllowHosts cfg req (writeSecureHeaders (loadConfig cfg) res)).ok
        = true ∧
      cfg.sslRedirect = true ∧ isSSLRequest cfg req = some false ∧
      st.ok = false ∧ st.req = redirectedRequest cfg req) := by
  cases hd : cfg.isDevelopment with
  | true =>
    rw [apply_dev cfg req res hd] at h
    simp only [Option.some.injEq] at h
    rw [← h]
    exact Or.inl rfl
  | false =>
    rw [apply_nondev cfg req res hd] at h
    simp only [] at h
    cases hok : (checkAllowHosts cfg req
        (writeSecureHeaders (loadConfig cfg) res)).ok with
    | false =>
      have hneg : ¬ ((checkAllowHosts cfg req
          (writeSecureHeaders (loadConfig cfg) res)).ok = true) := by
        simp [hok]
      rw [if_neg hneg, Option.some.injEq] at h
      rw [← h]
      exact Or.inl (checkAllowHosts_req cfg req _)
    | true =>
      rw [if_pos hok] at h
      rw [checkAllowHosts_ok_shape cfg req _ hok] at h
      rcases checkSSL_shape cfg req _ st h with h1 | ⟨hr, his, hst⟩
      · rw [h1]
        exact Or.inl rfl
      · refine Or.inr ⟨rfl, rfl, hr, his, ?_, ?_⟩ <;> rw [hst]

/-! ## Absence of run-time errors (claim C8 infrastructure) -/

theorem proxyLoop_isSome (entries : List (String × String)) (req : Request)
    (h : ∀ k v, (k, v) ∈ entries →
      ∀ vs, getHeader req.headers k = some vs → vs ≠ []) :
    (proxyLoop entries req).isSome = true := by
  induction entries with
  | nil => rfl
  | cons e rest ih =>
    obtain ⟨k, v⟩ := e
    have hrest : ∀ k' v', (k', v') ∈ rest →
        ∀ vs, getHeader req.headers k' = some vs → vs ≠ [] :=
      fun k' v' hm => h k' v' (List.mem_cons_of_mem _ hm)
    simp only [proxyLoop]
    cases hg : getHeader req.headers k with
    | none => exact ih hrest
    | some vs =>
      cases vs with
      | nil => exact absurd rfl (h k v (List.mem_cons_self _ _) [] hg)
      | cons c cs =>
        cases hf : eqFold c v with
        | true => simp [hf]
        | false =>
          simp only [hf, Bool.false_eq_true, if_false]
          exact ih hrest

theorem isSSLRequest_isSome (cfg : Config) (req : Request)
    (h : ∀ k v, (k, v) ∈ cfg.sslProxyHeaders →
      ∀ vs, getHeader req.headers k = some vs → vs ≠ []) :
    (isSSLRequest cfg req).isSome = true := by
  simp only [isSSLRequest]
  cases h1 : (eqFold req.url.scheme "https" || req.tls) with
  | true => simp
  | false =>
    simp only [Bool.false_eq_true, if_false]
    have hp := proxyLoop_isSome cfg.sslProxyHeaders req h
    cases hpl : proxyLoop cfg.sslProxyHeaders req with
    | none => rw [hpl] at hp; cases hp
    | some b => cases b <;> simp

theorem checkSSL_isSome (cfg : Config) (req : Request) (res : Response)
    (h : ∀ k v, (k, v) ∈ cfg.sslProxyHeaders →
      ∀ vs, getHeader req.headers k = some vs → vs ≠ []) :
    (checkSSL cfg req res).isSome = true := by
  simp only [checkSSL]
  cases hr : cfg.sslRedirect with
  | false => simp
  | true =>
    simp only [Bool.not_true, Bool.false_eq_true, if_false]
    have hs := isSSLRequest_isSome cfg req h
    cases his : isSSLRequest cfg req with
    | none => rw [his] at hs; cases hs
    | some b => cases b <;> simp

theorem checkSSL_redirect (cfg : Config) (req : Request) (res : Response)
    (hr : cfg.sslRedirect = true) (hssl : isSSLRequest cfg req = some false) :
    checkSSL cfg req res = some ⟨redirectedRequest cfg req,
      httpRedirect res (URL.render (redirectURL cfg req))
        (if cfg.sslTemporaryRedirect then 307 else 301), false⟩ := by
  simp [checkSSL, hr, hssl, redirectedRequest, redirectURL, redirectHost]

theorem checkSSL_pass (cfg : Config) (req : Request) (res : Response)
    (h : cfg.sslRedirect = false ∨ isSSLRequest cfg req = some true) :
    checkSSL cfg req res = some ⟨req, res, true⟩ := by
  rcases h with h | h
  · simp [checkSSL, h]
  · cases hr : cfg.sslRedirect <;> simp [checkSSL, hr, h]

/-! ## The claims -/

/-- C1: with `SSLRedirect` on and a non-SSL request — the SSL check
being reached: not development mode and the host check passing — `apply`
writes a redirect response whose `Location` is the absolute URL with
scheme `https`, host equal to `SSLHost` when non-empty and otherwise the
request's own host, and the original path and query unchanged, with
status 301, or 307 when `SSLTemporaryRedirect` is set, and returns
Halted; and when `SSLRedirect` is off or the request is an SSL request,
the SSL check passes. -/
theorem c1_ssl_redirect (cfg : Config) (req : Request) (res : Response) :
    (cfg.isDevelopment = false →
      (cfg.allowedHosts = [] ∨
        ∃ a ∈ cfg.allowedHosts, eqFold a (effectiveHost req) = true) →
      cfg.sslRedirect = true →
      isSSLRequest cfg req = some false →
      apply cfg req res = some ⟨redirectedRequest cfg req,
        httpRedirect (writeSecureHeaders (loadConfig cfg) res)
          (URL.render (redirectURL cfg req))
          (if cfg.sslTemporaryRedirect then 307 else 301), false⟩ ∧
      URL.render (redirectURL cfg req) =
        "https://" ++ redirectHost cfg req ++ req.url.path ++
          (if req.url.rawQuery.length = 0 then "" else "?" ++ req.url.rawQuery) ∧
      getHeader (httpRedirect (writeSecureHeaders (loadConfig cfg) res)
          (URL.render (redirectURL cfg req))
          (if cfg.sslTemporaryRedirect then 307 else 301)).headers "Location" =
        some [URL.render (redirectURL cfg req)] ∧
      (httpRedirect (writeSecureHeaders (loadConfig cfg) res)
          (URL.render (redirectURL cfg req))
          (if cfg.sslTemporaryRedirect then 307 else 301)).status =
        some (if cfg.sslTemporaryRedirect then 307 else 301))
    ∧ ((cfg.sslRedirect = false ∨ isSSLRequest cfg req = some true) →
      checkSSL cfg req res = some ⟨req, res, true⟩) := by
  constructor
  · intro hd hhost hr hssl
    have hca := checkAllowHosts_pass cfg req
      (writeSecureHeaders (loadConfig cfg) res) hhost
    refine ⟨?_, rfl, getHeader_setHeader_self _ _ _, rfl⟩
    rw [apply_nondev cfg req res hd]
    simp only [hca]
    show checkSSL cfg req (writeSecureHeaders (loadConfig cfg) res) = _
    exact checkSSL_redirect cfg req _ hr hssl
  · exact checkSSL_pass cfg req res

/-- C1 witness: the default scenario of the test suite — `SSLRedirect`
on, plain request for `http://www.example.com/foo` — redirects with
status 301 and Location `https://www.example.com/foo` and halts. -/
theorem c1_witness :
    apply sslConfig plainRequest emptyResponse =
      some ⟨redirectedRequest sslConfig plainRequest,
        httpRedirect (writeSecureHeaders (loadConfig sslConfig) emptyResponse)
          (URL.render (redirectURL sslConfig plainRequest))
          (if sslConfig.sslTemporaryRedirect then 307 else 301), false⟩ :=
  ((c1_ssl_redirect sslConfig plainRequest emptyResponse).1 rfl (Or.inl rfl)
    rfl (by decide)).1

/-- C2: the host check passes when `AllowedHosts` is empty; otherwise
the host from the `Host` header (falling back to the URL host when
empty) is compared case-insensitively against the entries and a match
passes; on no match, `apply` halts invoking `BadHostHandler` when set
and otherwise writing a 403 status with the body untouched. -/
theorem c2_host_check (cfg : Config) (req : Request) (res : Response) :
    (cfg.allowedHosts = [] → checkAllowHosts cfg req res = ⟨req, res, true⟩)
    ∧ ((∃ a ∈ cfg.allowedHosts, eqFold a (effectiveHost req) = true) →
      checkAllowHosts cfg req res = ⟨req, res, true⟩)
    ∧ (cfg.allowedHosts ≠ [] →
      (∀ a ∈ cfg.allowedHosts, eqFold a (effectiveHost req) = false) →
      cfg.isDevelopment = false →
      (cfg.badHostHandler = none →
        apply cfg req res = some ⟨req,
          { writeSecureHeaders (loadConfig cfg) res with status := some 403 },
          false⟩)
      ∧ (∀ f, cfg.badHostHandler = some f →
        apply cfg req res = some ⟨req,
          f (writeSecureHeaders (loadConfig cfg) res) req, false⟩)) := by
  refine ⟨fun h => checkAllowHosts_pass cfg req res (Or.inl h),
    fun h => checkAllowHosts_pass cfg req res (Or.inr h), ?_⟩
  intro hne hall hd
  have hnm := checkAllowHosts_no_match cfg req
    (writeSecureHeaders (loadConfig cfg) res) hne hall
  constructor
  · intro hbh
    rw [apply_nondev cfg req res hd]
    simp only [hnm, hbh]
    rfl
  · intro f hbh
    rw [apply_nondev cfg req res hd]
    simp only [hnm, hbh]
    rfl

/-- C2 witness: the test suite's bad-host scenario — two allowed hosts,
request for `www3.example.com`, no handler — halts with status 403 and
empty body. -/
theorem c2_witness :
    apply hostsConfig badHostRequest emptyResponse =
      some ⟨badHostRequest,
        { writeSecureHeaders (loadConfig hostsConfig) emptyResponse with
            status := some 403 }, false⟩ :=
  ((c2_host_check hostsConfig badHostRequest emptyResponse).2.2 (by decide)
    (by decide) rfl).1 rfl

/-- C3: in development mode `apply` returns Continue and hands the
response back completely untouched, whatever the other fields say. -/
theorem c3_development_bypass (cfg : Config) (req : Request) (res : Response)
    (hd : cfg.isDevelopment = true) :
    apply cfg req res = some ⟨req, res, true⟩ :=
  apply_dev cfg req res hd

/-- C3 witness: a development configuration with allow-list, SSL
redirect, frame deny and STS all enabled still passes a plain request
through untouched. -/
theorem c3_witness :
    apply devConfig plainRequest emptyResponse =
      some ⟨plainRequest, emptyResponse, true⟩ :=
  c3_development_bypass devConfig plainRequest emptyResponse rfl

/-- C4: for every configuration the compiled header set equals the
reference definition `refHeaders`: one pair per enabled field in the
fixed order, the custom frame value replacing `DENY`, the STS pair
present exactly when `STSSeconds` is non-zero with the
`; includeSubdomains` suffix exactly when the flag is set, absent or
zero-valued fields producing no pair. -/
theorem c4_compiled_headers (cfg : Config) : loadConfig cfg = refHeaders cfg :=
  loadConfig_eq_refHeaders cfg

/-- C5: outside development mode the compiled pairs are written (with
set semantics) before the host and SSL checks run, so every response
`apply` hands back carries them — on the Continue, redirect and default
403 paths the final response maps every compiled key to its value, and
on the `BadHostHandler` path the handler received a response that
already did. -/
theorem c5_headers_before_checks (cfg : Config) (req : Request)
    (res : Response) (st : Step) (hd : cfg.isDevelopment = false)
    (h : apply cfg req res = some st) :
    (∀ p ∈ loadConfig cfg, getHeader st.res.headers p.key = some p.value) ∨
    (∃ f, cfg.badHostHandler = some f ∧
      st.res = f (writeSecureHeaders (loadConfig cfg) res) req ∧
      ∀ p ∈ loadConfig cfg,
        getHeader (writeSecureHeaders (loadConfig cfg) res).headers p.key =
          some p.value) := by
  have base : ∀ p ∈ loadConfig cfg,
      getHeader (writeSecureHeaders (loadConfig cfg) res).headers p.key =
        some p.value :=
    fun p hp => getHeader_writeSecureHeaders cfg res p hp
  rw [apply_nondev cfg req res hd] at h
  simp only [] at h
  cases hok : (checkAllowHosts cfg req
      (writeSecureHeaders (loadConfig cfg) res)).ok with
  | false =>
    have hneg : ¬ ((checkAllowHosts cfg req
        (writeSecureHeaders (loadConfig cfg) res)).ok = true) := by
      simp [hok]
    rw [if_neg hneg, Option.some.injEq] at h
    rcases checkAllowHosts_fail_shape cfg req _ hok with ⟨hbh, hsh⟩ | ⟨f, hbh, hsh⟩
    · left
      rw [← h, hsh]
      exact base
    · right
      exact ⟨f, hbh, by rw [← h, hsh], base⟩
  | true =>
    rw [if_pos hok] at h
    rw [checkAllowHosts_ok_shape cfg req _ hok] at h
    rcases checkSSL_shape cfg req _ st h with h1 | ⟨hr, his, hst⟩
    · left
      rw [h1]
      exact base
    · left
      rw [hst]
      intro p hp
      have hkey : p.key ≠ "Location" :=
        secureHeaderNames_ne_location p.key (loadConfig_key_mem_names cfg p hp)
      simp only [httpRedirect]
      rw [getHeader_setHeader_other _ _ _ _ hkey]
      exact base p hp

/-- C5 witness: with `FrameDeny` on, a plain continuing request ends
with the `X-Frame-Options: DENY` pair present in the response. -/
theorem c5_witness :
    (∀ p ∈ loadConfig frameConfig,
      getHeader frameStep.res.headers p.key = some p.value) ∨
    (∃ f, frameConfig.badHostHandler = some f ∧
      frameStep.res =
        f (writeSecureHeaders (loadConfig frameConfig) emptyResponse)
          plainRequest ∧
      ∀ p ∈ loadConfig frameConfig,
        getHeader (writeSecureHeaders (loadConfig frameConfig)
          emptyResponse).headers p.key = some p.value) :=
  c5_headers_before_checks frameConfig plainRequest emptyResponse frameStep
    rfl (by decide)

/-- C6 counterexample: with `SSLRedirect` on, applying to a plain
request does not leave the request object identical — `checkSSL`
mutates `req.URL` in place on the redirect path, contradicting the
claim that the request is unchanged on every path. -/
theorem c6_counterexample :
    (apply sslConfig plainRequest emptyResponse).map Step.req ≠
      some plainRequest := by
  decide

/-- C6 (amended): `apply` mutates only the response except on the
SSL-redirect path, where it also rewrites the request URL's scheme to
`https` and its host to the redirect target host; everywhere else —
Continue paths, host-check halts, development mode — the request is
returned unchanged. -/
theorem c6_request_mutation (cfg : Config) (req : Request) (res : Response)
    (st : Step) (h : apply cfg req res = some st) :
    st.req = req ∨
    (cfg.isDevelopment = false ∧ cfg.sslRedirect = true ∧
      isSSLRequest cfg req = some false ∧ st.ok = false ∧
      st.req = redirectedRequest cfg req) := by
  rcases apply_shape cfg req res st h with h1 | ⟨hd, _, hr, his, hok, hst⟩
  · exact Or.inl h1
  · exact Or.inr ⟨hd, hr, his, hok, hst⟩

/-- C6 witness: on the concrete SSL-redirect run the amended dichotomy
holds (the right branch: the request came back with its URL rewritten
to `https://www.example.com`). -/
theorem c6_witness :
    redirectStep.req = plainRequest ∨
    (sslConfig.isDevelopment = false ∧ sslConfig.sslRedirect = true ∧
      isSSLRequest sslConfig plainRequest = some false ∧
      redirectStep.ok = false ∧
      redirectStep.req = redirectedRequest sslConfig plainRequest) :=
  c6_request_mutation sslConfig plainRequest emptyResponse redirectStep
    (by decide)

/-- C7 counterexample: with `SSLRedirect` on, the first invocation on a
plain request halts (redirect), but a second invocation on the same —
now mutated — request returns Continue: the outcomes differ, refuting
idempotence over the shared request object. -/
theorem c7_counterexample :
    (apply sslConfig plainRequest emptyResponse).map Step.ok = some false ∧
    ((apply sslConfig plainRequest emptyResponse).bind
      (fun s => (apply sslConfig s.req emptyResponse).map Step.ok)) =
      some true := by
  decide

/-- C7 (amended): re-invoking `apply` on the same configuration, the
same request object and an identical fresh response yields the identical
outcome and response whenever the first invocation did not take the
SSL-redirect path — it returned Continue, or `SSLRedirect` is off, or
the request was already SSL, or the host check had failed; the redirect
path falsifies this because the first invocation mutates the request's
URL. -/
theorem c7_idempotent_off_redirect (cfg : Config) (req : Request)
    (res : Response) (st : Step) (h : apply cfg req res = some st)
    (hcond : st.ok = true ∨ cfg.sslRedirect = false ∨
      isSSLRequest cfg req ≠ some false ∨
      (checkAllowHosts cfg req
        (writeSecureHeaders (loadConfig cfg) res)).ok = false) :
    apply cfg st.req res = some st := by
  have hreq : st.req = req := by
    rcases apply_shape cfg req res st h with h1 | ⟨hd, hok, hr, his, hsok, hst⟩
    · exact h1
    · rcases hcond with hc | hc | hc | hc
      · rw [hsok] at hc; cases hc
      · rw [hr] at hc; cases hc
      · exact absurd his hc
      · rw [hok] at hc; cases hc
  rw [hreq, h]

/-- C7 witness: on the concrete host-check-halt run (403), re-invoking
`apply` on the returned request yields the identical outcome. -/
theorem c7_witness :
    apply hostsConfig forbiddenStep.req emptyResponse = some forbiddenStep :=
  c7_idempotent_off_redirect hostsConfig badHostRequest emptyResponse
    forbiddenStep (by decide)
    (Or.inr (Or.inr (Or.inr (by decide))))

/-- C8 counterexample: with a configured proxy header present in the
request with an empty value list, `apply` aborts with a run-time error
(`hv[0]` indexes an empty slice), refuting the claim that apply never
panics on such requests. -/
theorem c8_counterexample :
    apply proxyConfig emptyValueRequest emptyResponse = none := by
  decide

/-- C8 (amended): `apply` runs to completion whenever every configured
`SSLProxyHeaders` key that occurs in the request's header map carries a
non-empty value list — in particular for absent proxy headers, which
fall through to the next check, and whatever the host string is; the
sole run-time error is the first-value access on a present key with an
empty value slice. -/
theorem c8_no_runtime_error (cfg : Config) (req : Request) (res : Response)
    (h : ∀ k v, (k, v) ∈ cfg.sslProxyHeaders →
      ∀ vs, getHeader req.headers k = some vs → vs ≠ []) :
    (apply cfg req res).isSome = true := by
  cases hd : cfg.isDevelopment with
  | true => rw [apply_dev cfg req res hd]; rfl
  | false =>
    rw [apply_nondev cfg req res hd]
    simp only []
    cases hok : (checkAllowHosts cfg req
        (writeSecureHeaders (loadConfig cfg) res)).ok with
    | false => rfl
    | true =>
      rw [checkAllowHosts_ok_shape cfg req _ hok]
      show (checkSSL cfg req (writeSecureHeaders (loadConfig cfg) res)).isSome
        = true
      exact checkSSL_isSome cfg req _ h

/-- C8 witness: with the proxy-header configuration and a request
without that header, `apply` completes. -/
theorem c8_witness : (apply proxyConfig plainRequest emptyResponse).isSome = true :=
  c8_no_runtime_error proxyConfig plainRequest emptyResponse (by
    intro k v hm vs hg
    simp [plainRequest, getHeader] at hg)

/-- C9: `isIPV4` cuts the host at its first colon (the optional port
suffix) and accepts exactly the literal IPv4 dotted-quads — the
canonical decimal renderings of four numbers at most 255 joined by
dots — so hostnames and IPv6 literals yield false; with the five
concrete values the specification lists. -/
theorem c9_ipv4 (host : String) :
    (isIPV4 host = true ↔
      IsDottedQuad (host.data.takeWhile (fun c => !(c == ':')))) ∧
    isIPV4 "127.0.0.1" = true ∧ isIPV4 "127.0.0.1:8080" = true ∧
    isIPV4 "localhost" = false ∧ isIPV4 "localhost:8080" = false ∧
    isIPV4 "example.com" = false := by
  refine ⟨?_, by decide, by decide, by decide, by decide, by decide⟩
  rw [isIPV4, ← takeUntilColon_eq_takeWhile]
  exact parseIPv4ok_iff _

/-- C9 witness: the dotted-quad characterization evaluated at
`127.0.0.1`. -/
theorem c9_witness :
    IsDottedQuad ("127.0.0.1".data.takeWhile (fun c => !(c == ':'))) :=
  ((c9_ipv4 "127.0.0.1").1).mp (by decide)

/-- C10: an `SSLProxyHeaders` entry is consulted via an exact byte-equal
lookup of its configured name: an entry whose exact name is absent from
the stored keys is skipped — even when a differently-cased variant of it
is stored, as the lower-cased configuration against a canonically-stored
header shows; only the value comparison is case-insensitive, and only
the first value of a matching header is compared. -/
theorem c10_exact_header_lookup (req : Request) :
    (∀ h v rest, getHeader req.headers h = none →
      proxyLoop ((h, v) :: rest) req = proxyLoop rest req)
    ∧ (∀ h v rest c cs, getHeader req.headers h = some (c :: cs) →
      eqFold c v = true → proxyLoop ((h, v) :: rest) req = some true)
    ∧ (∀ h v rest c cs, getHeader req.headers h = some (c :: cs) →
      eqFold c v = false → proxyLoop ((h, v) :: rest) req = proxyLoop rest req)
    ∧ isSSLRequest lowerProxyConfig canonicalHeaderRequest = some false := by
  refine ⟨?_, ?_, ?_, by decide⟩
  · intro h v rest hn
    simp [proxyLoop, hn]
  · intro h v rest c cs hg hf
    simp [proxyLoop, hg, hf]
  · intro h v rest c cs hg hf
    simp [proxyLoop, hg, hf]

/-- C10 witness: an entry whose exact key is absent is skipped, shown on
the canonical-header request with a lower-cased configured name. -/
theorem c10_witness :
    proxyLoop [("x-forwarded-proto", "https")] canonicalHeaderRequest =
      proxyLoop [] canonicalHeaderRequest :=
  (c10_exact_header_lookup canonicalHeaderRequest).1 "x-forwarded-proto"
    "https" [] (by decide)

end Secure
